import Mathlib

/-!
Verification development for the WuKongIM core: the per-channel leader
election subsystem (`channelElectionManager`) and the message log store
(`wkdb` message table).  Go source is embedded shallowly: machine integers
become `Nat` with explicit `% 2 ^ w` at the conversion sites where the Go
code converts, fallible operations return `Except`, the pebble ordered KV
store becomes sorted association lists, and concurrency is modelled by
explicit parameters (scheduler choices, commit success flags, adapter
functions).
-/

namespace Cluster

/-- Wire response of the witness RPC.  Modelled from the spec: the struct
`ChannelLastLogInfoResponse` is declared outside the given sources; spec §6
gives its fields `{channelId, channelType, logIndex, term}`. -/
structure ChannelLastLogInfoResponse where
  channelId : String
  channelType : Nat
  logIndex : Nat
  term : Nat
deriving DecidableEq, Repr

/-- Wire request of the witness RPC.  Modelled from the spec (§6):
`{channelId, channelType}`. -/
structure ChannelLastLogInfoReq where
  channelId : String
  channelType : Nat
deriving DecidableEq, Repr

/-- `replicaChannelLastLogInfoResponse`: a witness response annotated with the
replica that produced it (source `part_000`, lines 287-290). -/
structure ReplicaChannelLastLogInfoResponse where
  replicaId : Nat
  resp : ChannelLastLogInfoResponse
deriving DecidableEq, Repr

/-- One iteration of the scan loop of `channelLeaderIDByLogInfo`
(source `part_000`, lines 176-187).  The accumulator is
`(leaderID, maxIndex, maxTerm)`, initially `(0, 0, 0)`. -/
def leaderStep (acc : Nat × Nat × Nat) (r : ReplicaChannelLastLogInfoResponse) :
    Nat × Nat × Nat :=
  let leaderID := acc.1
  let maxIndex := acc.2.1
  let maxTerm := acc.2.2
  if maxTerm < r.resp.term then
    (r.replicaId, r.resp.logIndex, r.resp.term)
  else if r.resp.term = maxTerm then
    (if maxIndex < r.resp.logIndex then (r.replicaId, r.resp.logIndex, maxTerm)
     else (leaderID, maxIndex, maxTerm))
  else (leaderID, maxIndex, maxTerm)

/-- `channelLeaderIDByLogInfo` (source `part_000`, lines 170-190): pick the
replica with the greatest `(Term, LogIndex)`, first encountered wins. -/
def channelLeaderIDByLogInfo (resps : List ReplicaChannelLastLogInfoResponse) : Nat :=
  (resps.foldl leaderStep (0, 0, 0)).1

/-- `ChannelClusterConfig`.  Modelled from the spec: the struct is declared in
`pkg/wkdb` outside the given sources; spec §3 lists its fields
`channelId, channelType, replicas, term (32-bit), leaderId`. -/
structure ChannelClusterConfig where
  channelId : String
  channelType : Nat
  replicas : List Nat
  term : Nat
  leaderId : Nat
deriving DecidableEq, Repr

/-- The channel identity fields of `req.ch` that the election reads
(`channelId`, `channelType`; the string `ch.key` used for the local MLS read
is identified with this pair). -/
structure ChannelRef where
  channelId : String
  channelType : Nat
deriving DecidableEq, Repr

/-- `electionReq` (source `part_000`, lines 276-280), without the result
channel: result delivery is modelled by the value an election round computes
for the request. -/
structure ElectionReq where
  ch : ChannelRef
  cfg : ChannelClusterConfig
deriving DecidableEq, Repr

/-- Error of the local message-log read (`LastIndexAndTerm`); carries a code so
that distinct errors are distinguishable. -/
structure MlsErr where
  code : Nat
deriving DecidableEq, Repr

/-- The error kinds an election round can deliver on a result channel
(source `part_000`: `err` propagated at lines 110-115, `ErrNotEnoughReplicas`
at line 138, `ErrNoLeader` at line 149). -/
inductive ElectionError where
  | mls (e : MlsErr)
  | notEnoughReplicas
  | noLeader
deriving DecidableEq, Repr

/-- The value delivered on a request's result channel: `electionResp` with
either `err` or `cfg` set (source `part_000`, lines 282-285). -/
inductive ElectionResult where
  | err (e : ElectionError)
  | ok (cfg : ChannelClusterConfig)
deriving DecidableEq, Repr

/-- The witness-matching loop of `election` (source `part_000`, lines
121-133): scan the node→responses map and keep, tagged with the replica id,
every response whose channel equals the request's channel.  The Go map's
iteration order is not specified; the map is modelled as an association list
and the claims proved below do not depend on its order. -/
def collectLastInfoResps (m : List (Nat × List ChannelLastLogInfoResponse))
    (req : ElectionReq) : List ReplicaChannelLastLogInfoResponse :=
  m.foldl
    (fun acc p =>
      acc ++ (p.2.filter
        (fun resp => decide (req.ch.channelId = resp.channelId) &&
          decide (req.ch.channelType = resp.channelType))).map
        (fun resp => ⟨p.1, resp⟩))
    []

/-- `quorum` (source `part_000`, lines 192-195). -/
def quorum (channelMaxReplicaCount : Nat) : Nat :=
  channelMaxReplicaCount / 2 + 1

/-- The per-request body of `election` (source `part_000`, lines 120-166):
quorum check, leader choice, then the new config with `Term++` (a Go `uint32`
increment, hence `% 2 ^ 32`) and `LeaderId` replaced. -/
def electionForReq (maxReplicaCount : Nat)
    (m : List (Nat × List ChannelLastLogInfoResponse)) (req : ElectionReq) :
    ElectionResult :=
  let lastInfoResps := collectLastInfoResps m req
  if lastInfoResps.length < quorum maxReplicaCount then
    .err .notEnoughReplicas
  else
    let newLeaderId := channelLeaderIDByLogInfo lastInfoResps
    if newLeaderId = 0 then .err .noLeader
    else .ok { req.cfg with term := (req.cfg.term + 1) % 2 ^ 32, leaderId := newLeaderId }

/-- The inner drain loop of `loop` (source `part_000`, lines 54-64): keep
taking queued requests while `reqLen < max` and the queue is non-empty.
Returns `(batch so far, final reqLen, rest of queue)`.  Note `reqLen` is the
loop-carried counter declared once outside the outer `for`. -/
def drainLoop (max : Nat) : List α → Nat → List α → (List α × Nat × List α)
  | [], reqLen, batch => (batch, reqLen, [])
  | r :: rest, reqLen, batch =>
    if reqLen < max then drainLoop max rest (reqLen + 1) (batch ++ [r])
    else (batch, reqLen, r :: rest)

/-- One iteration of the outer `for`/`select` of `loop` (source `part_000`,
lines 47-83): receive one request (`none` when the queue is empty and the
iteration blocks), then drain.  Yields the submitted batch, the remaining
queue, and the carried `reqLen` — which the Go code never resets, although
`electionReqs` is reset to `electionReqs[:0]` after submission. -/
def loopIteration (max : Nat) (queue : List α) (reqLen : Nat) :
    Option (List α × List α × Nat) :=
  match queue with
  | [] => none
  | r :: rest =>
    let d := drainLoop max rest (reqLen + 1) [r]
    some (d.1, d.2.2, d.2.1)

/-- Result of `addElectionReq`: `nil`, `ErrStopped`, or
`ErrChannelElectionCIsFull`. -/
inductive EnqueueResult where
  | ok
  | stopped
  | queueFull
deriving DecidableEq, Repr

/-- Capacity of the election queue: the buffer of `electionC` in
`newChannelElectionManager` (source `part_000`, line 26). -/
def ElectionQueueCap : Nat := 1000

/-- `addElectionReq` (source `part_000`, lines 88-97).  The Go `select` has a
send case (ready when `queueLen < cap`), a stop case (ready when the stopper
has been stopped, since `ShouldStop` is then a closed channel), and a
`default`.  When both the send and the stop case are ready Go picks one at
random; `pickSend` is that scheduler choice.  Returns the result and the new
queue length. -/
def addElectionReq (stopping : Bool) (queueLen cap : Nat) (pickSend : Bool) :
    EnqueueResult × Nat :=
  let sendReady := queueLen < cap
  if sendReady ∧ stopping then
    (if pickSend then (.ok, queueLen + 1) else (.stopped, queueLen))
  else if sendReady then (.ok, queueLen + 1)
  else if stopping then (.stopped, queueLen)
  else (.queueFull, queueLen)

/-- Invariant of the scan of `channelLeaderIDByLogInfo` relating the
accumulator `(leaderID, maxIndex, maxTerm)` to the prefix scanned so far:
`(maxTerm, maxIndex)` bounds every witness lexicographically, and either
nothing beat the initial `(0, 0)` (then `leaderID = 0`) or `leaderID` is the
replica of the first witness attaining `(maxTerm, maxIndex)`. -/
def leaderInv (resps : List ReplicaChannelLastLogInfoResponse)
    (acc : Nat × Nat × Nat) : Prop :=
  (∀ r ∈ resps,
    r.resp.term < acc.2.2 ∨ (r.resp.term = acc.2.2 ∧ r.resp.logIndex ≤ acc.2.1)) ∧
  ((acc.2.2 = 0 ∧ acc.2.1 = 0 ∧ acc.1 = 0) ∨
    ∃ pre w post, resps = pre ++ w :: post ∧ w.replicaId = acc.1 ∧
      w.resp.term = acc.2.2 ∧ w.resp.logIndex = acc.2.1 ∧
      ∀ r ∈ pre, ¬(r.resp.term = acc.2.2 ∧ r.resp.logIndex = acc.2.1))

/-- Concrete input for the C1 witness: scenario S2 of the spec. -/
def exWitnessesC1 : List ReplicaChannelLastLogInfoResponse :=
  [⟨1, ⟨"c", 2, 5, 3⟩⟩, ⟨2, ⟨"c", 2, 100, 2⟩⟩, ⟨3, ⟨"c", 2, 50, 3⟩⟩]

/-- Concrete node→responses map for the C2/C9 counterexamples: replica 1
answers for channel `("c", 2)` with `(logIndex, term) = (0, 0)`. -/
def exRespsMapC2 : List (Nat × List ChannelLastLogInfoResponse) :=
  [(1, [⟨"c", 2, 0, 0⟩])]

/-- Concrete election request for the C2 counterexample. -/
def exReqC2 : ElectionReq := ⟨⟨"c", 2⟩, ⟨"c", 2, [1], 7, 0⟩⟩

/-- Concrete node→responses map for the C3 counterexample. -/
def exRespsMapC3 : List (Nat × List ChannelLastLogInfoResponse) :=
  [(1, [⟨"c", 2, 5, 1⟩])]

/-- Concrete election request with input term `2 ^ 32 - 1` (the maximal Go
`uint32`). -/
def exReqC3 : ElectionReq := ⟨⟨"c", 2⟩, ⟨"c", 2, [1], 2 ^ 32 - 1, 0⟩⟩

/-- Concrete map, request and output config for the C3 witness. -/
def exRespsMapC3w : List (Nat × List ChannelLastLogInfoResponse) :=
  [(1, [⟨"c", 2, 9, 1⟩])]

def exReqC3w : ElectionReq := ⟨⟨"c", 2⟩, ⟨"c", 2, [1], 7, 0⟩⟩

def exCfgC3w : ChannelClusterConfig := ⟨"c", 2, [1], 8, 1⟩

/-- The external collaborators of the witness collector (spec §4.4): the local
node id, the liveness oracle `NodeOnline`, presence of a remote handle
(`nodeManager.node ≠ nil`), the batched remote RPC (`none` models an RPC
error or timeout), and the local message-log read `LastIndexAndTerm`
returning `(lastIndex, lastTerm)`. -/
structure WCEnv where
  nodeId : Nat
  online : Nat → Bool
  nodePresent : Nat → Bool
  rpc : Nat → List ChannelLastLogInfoReq → Option (List ChannelLastLogInfoResponse)
  lastIndexAndTerm : ChannelRef → Except MlsErr (Nat × Nat)

/-- Append `v` to the list bound to `k` in an association list, creating the
binding at the end if absent — the effect of `map[k] = append(map[k], v)`. -/
def assocAppend [DecidableEq α] (m : List (α × List β)) (k : α) (v : β) :
    List (α × List β) :=
  match m with
  | [] => [(k, [v])]
  | (k', l) :: rest =>
    if k = k' then (k', l ++ [v]) :: rest else (k', l) :: assocAppend rest k v

/-- The grouping loop of `requestChannelLastLogInfos` (source `part_000`,
lines 198-203): expand every request over its `cfg.Replicas` into a
node→requests map.  The Go map's iteration order is unspecified; an
association list in first-insertion order is one admissible order, and the
properties proved below do not depend on it. -/
def groupByReplica (reqs : List ElectionReq) : List (Nat × List ElectionReq) :=
  reqs.foldl (fun m req => req.cfg.replicas.foldl (fun m rid => assocAppend m rid req) m) []

/-- The local-replica branch (source `part_000`, lines 215-234): answer each
request from the local message log; the first failing read aborts the whole
collection with that error. -/
def localInfos (env : WCEnv) : List ElectionReq → Except MlsErr (List ChannelLastLogInfoResponse)
  | [] => .ok []
  | req :: rest =>
    match env.lastIndexAndTerm req.ch with
    | .error e => .error e
    | .ok p =>
      match localInfos env rest with
      | .error e => .error e
      | .ok tl => .ok (⟨req.ch.channelId, req.ch.channelType, p.1, p.2⟩ :: tl)

/-- The per-replica dispatch of `requestChannelLastLogInfos` (source
`part_000`, lines 210-271) over the grouped map: offline replicas are
skipped; the local replica is answered via `localInfos` (its error aborts
everything); a remote replica with no handle or a failing RPC contributes
nothing; a successful RPC contributes its response list under the replica's
id. -/
def collectGrouped (env : WCEnv) :
    List (Nat × List ElectionReq) →
      Except MlsErr (List (Nat × List ChannelLastLogInfoResponse))
  | [] => .ok []
  | (rid, rs) :: rest =>
    if env.online rid = false then collectGrouped env rest
    else if rid = env.nodeId then
      match localInfos env rs with
      | .error e => .error e
      | .ok infos =>
        match collectGrouped env rest with
        | .error e => .error e
        | .ok m => .ok ((rid, infos) :: m)
    else if env.nodePresent rid = false then collectGrouped env rest
    else
      match env.rpc rid (rs.map (fun r => ⟨r.ch.channelId, r.ch.channelType⟩)) with
      | none => collectGrouped env rest
      | some resps =>
        match collectGrouped env rest with
        | .error e => .error e
        | .ok m => .ok ((rid, resps) :: m)

/-- `requestChannelLastLogInfos` (source `part_000`, lines 197-274): group the
batch by replica, then collect witnesses per replica.  The concurrent RPC
fan-out is modelled sequentially; the aggregated map and the error outcome do
not depend on completion order. -/
def requestChannelLastLogInfos (env : WCEnv) (reqs : List ElectionReq) :
    Except MlsErr (List (Nat × List ChannelLastLogInfoResponse)) :=
  collectGrouped env (groupByReplica reqs)

/-- `election` (source `part_000`, lines 99-167): collect witnesses; on a
collection error every request receives that error; otherwise each request is
decided by `electionForReq`. -/
def election (env : WCEnv) (maxReplicaCount : Nat) (reqs : List ElectionReq) :
    List ElectionResult :=
  match requestChannelLastLogInfos env reqs with
  | .error e => reqs.map (fun _ => .err (.mls e))
  | .ok m => reqs.map (electionForReq maxReplicaCount m)

/-- `true` exactly on `Except.ok`. -/
def isOkE : Except ε α → Bool
  | .ok _ => true
  | .error _ => false

/-- Concrete environment for the C7 witness: node 1 is local with a healthy
log read, node 2 is offline for RPC purposes (`nodePresent` false) and the
RPC always fails — yet collection succeeds. -/
def exEnvC7 : WCEnv where
  nodeId := 1
  online := fun _ => true
  nodePresent := fun _ => false
  rpc := fun _ _ => none
  lastIndexAndTerm := fun _ => .ok (5, 2)

/-- Concrete request batch for the C7 witness. -/
def exReqsC7 : List ElectionReq := [⟨⟨"c", 2⟩, ⟨"c", 2, [1, 2], 7, 0⟩⟩]

/-- Second concrete environment for the C7 witness: node 1 local with a
healthy log read; replica 2 online with a handle and a healthy RPC; replica
3 online but with no remote handle (`node(3)` absent) and a failing RPC. -/
def exEnvC7b : WCEnv where
  nodeId := 1
  online := fun _ => true
  nodePresent := fun rid => decide (rid = 2)
  rpc := fun rid _ => if rid = 2 then some [⟨"c", 2, 77, 9⟩] else none
  lastIndexAndTerm := fun _ => .ok (5, 2)

/-- Request over replicas `[1, 2, 3]` for the second C7 witness
environment. -/
def exReqC7b : ElectionReq := ⟨⟨"c", 2⟩, ⟨"c", 2, [1, 2, 3], 7, 0⟩⟩

def exReqsC7b : List ElectionReq := [exReqC7b]

/-- The node→witnesses map `exEnvC7b` collection returns: the local read for
replica 1 and the RPC responses of replica 2; replica 3 contributes
nothing. -/
def exMapC7b : List (Nat × List ChannelLastLogInfoResponse) :=
  [(1, [⟨"c", 2, 5, 2⟩]), (2, [⟨"c", 2, 77, 9⟩])]

end Cluster

namespace Wkdb

/-- The value of one pebble column row.  The Go code stores byte strings and
decodes them per column; the write-side conversion composed with the read-side
one is the identity on each Go field type, so values are kept typed, with the
Go conversions (`uint8`, `uint32`, `uint64`, `int32`/`int64` bit patterns)
applied at the write sites. -/
inductive ColVal where
  | byte (b : Nat)
  | u32 (n : Nat)
  | u64 (n : Nat)
  | i32 (n : Int)
  | i64 (n : Int)
  | str (s : String)
  | bytes (p : List Nat)
deriving DecidableEq, Repr

def ColVal.asByte : ColVal → Nat
  | .byte b => b
  | _ => 0

def ColVal.asU32 : ColVal → Nat
  | .u32 n => n
  | _ => 0

def ColVal.asU64 : ColVal → Nat
  | .u64 n => n
  | _ => 0

def ColVal.asI32 : ColVal → Int
  | .i32 n => n
  | _ => 0

def ColVal.asI64 : ColVal → Int
  | .i64 n => n
  | _ => 0

def ColVal.asStr : ColVal → String
  | .str s => s
  | _ => ""

def ColVal.asBytes : ColVal → List Nat
  | .bytes p => p
  | _ => []

/-- The Go `int32` bit-pattern normalization (identity on `int32`-range
values). -/
def wrapI32 (x : Int) : Int := (x + 2 ^ 31) % 2 ^ 32 - 2 ^ 31

/-- The Go `int64` bit-pattern normalization (identity on `int64`-range
values). -/
def wrapI64 (x : Int) : Int := (x + 2 ^ 63) % 2 ^ 64 - 2 ^ 63

/-- `uint64(x)` for a signed Go integer `x` (two's-complement
reinterpretation). -/
def intToU64 (x : Int) : Nat := (x % 2 ^ 64).toNat

def colHeader : Nat := 1

def colSetting : Nat := 2

def colExpire : Nat := 3

def colMessageId : Nat := 4

def colMessageSeq : Nat := 5

def colClientMsgNo : Nat := 6

def colTimestamp : Nat := 7

def colChannelId : Nat := 8

def colChannelType : Nat := 9

def colTopic : Nat := 10

def colFromUid : Nat := 11

def colPayload : Nat := 12

def colTerm : Nat := 13

def minColumnKey : Nat := 0

def maxColumnKey : Nat := 14

/-- The `Message` row (spec §3; Go struct `wkdb.Message` wrapping a
`RecvPacket`).  Field types are the Go ones: `messageSeq : uint32`,
`messageId : int64`, `timestamp : int32`, `channelType/framer/setting :
uint8`, `expire : uint32`, `term : uint64`. -/
structure Message where
  messageSeq : Nat
  messageId : Int
  clientMsgNo : String
  timestamp : Int
  channelId : String
  channelType : Nat
  topic : String
  fromUid : String
  payload : List Nat
  term : Nat
  framer : Nat
  setting : Nat
  expire : Nat
deriving DecidableEq, Repr

/-- The zero `Message` (`EmptyMessage`). -/
def emptyMessage : Message := ⟨0, 0, "", 0, "", 0, "", "", [], 0, 0, 0, 0⟩

/-- `IsEmptyMessage`.  Modelled from the spec: the predicate and
`EmptyMessage` are defined outside the given sources; modelled as equality
with the zero `Message`. -/
def IsEmptyMessage (m : Message) : Bool := decide (m = emptyMessage)

/-- A channel's identity `(channelId, channelType)`.  The derived 64-bit
`channelNum = key.ChannelIdToNum(channelId, channelType)` (spec §3) is a hash
defined outside the given sources; the pair itself stands in for it, which is
faithful up to hash-collision freedom. -/
structure ChannelKey where
  channelId : String
  channelType : Nat
deriving DecidableEq, Repr

/-- First-match lookup in an association list (a pebble point `Get`). -/
def assocGet [DecidableEq α] : List (α × β) → α → Option β
  | [], _ => none
  | (k, v) :: rest, a => if a = k then some v else assocGet rest a

/-- Replace-or-append update of an association list (a pebble `Set`). -/
def assocSet [DecidableEq α] : List (α × β) → α → β → List (α × β)
  | [], k, v => [(k, v)]
  | (k2, v2) :: rest, k, v =>
    if k = k2 then (k2, v) :: rest else (k2, v2) :: assocSet rest k v

/-- Strict lexicographic order on `(messageSeq, columnTag)` row keys — the
big-endian key encoding makes pebble's byte order coincide with it
(spec §4.1 "lexicographic order equals sequence order"). -/
def rkLt (a b : Nat × Nat) : Bool :=
  decide (a.1 < b.1) || (decide (a.1 = b.1) && decide (a.2 < b.2))

/-- Ordered insert-or-replace into a channel's sorted column-row list (a
pebble `Set` in the message primary keyspace). -/
def setRow : List ((Nat × Nat) × ColVal) → Nat × Nat → ColVal →
    List ((Nat × Nat) × ColVal)
  | [], k, v => [(k, v)]
  | (k2, v2) :: rest, k, v =>
    if rkLt k k2 then (k, v) :: (k2, v2) :: rest
    else if k = k2 then (k2, v) :: rest
    else (k2, v2) :: setRow rest k v

/-- Range scan by `messageSeq` over a channel's sorted rows: the pebble
iterator over `[NewMessagePrimaryKey(ch, lo), NewMessagePrimaryKey(ch, hi))`
(the primary key without a column byte is a strict prefix of every column key
of the same sequence, so the range covers all columns of `lo ≤ seq < hi`). -/
def scanSeq (rows : List ((Nat × Nat) × ColVal)) (lo hi : Nat) :
    List ((Nat × Nat) × ColVal) :=
  rows.filter (fun e => decide (lo ≤ e.1.1) && decide (e.1.1 < hi))

/-- `db.DeleteRange` over `[NewMessagePrimaryKey(ch, lo),
NewMessagePrimaryKey(ch, hi))` restricted to one channel's rows. -/
def deleteRangeRows (rows : List ((Nat × Nat) × ColVal)) (lo hi : Nat) :
    List ((Nat × Nat) × ColVal) :=
  rows.filter (fun e => !(decide (lo ≤ e.1.1) && decide (e.1.1 < hi)))

/-- The parts of the sharded pebble store the message table touches: per
channel the sorted column rows of the primary keyspace and the
`channelLastMessageSeq` row `(seq, setTimeNs)`; the `messageId`, `fromUid`,
`clientMsgNo` and `timestamp` secondary indices (primary handle =
`(channel, messageSeq)`); and the global message count
(`IncMessageCount`, defined outside the given sources, increments it in its
own keyspace, not in the append batch).  Shard routing assigns each channel
a fixed shard (`channelNum mod N`), so keying everything by channel is
faithful. -/
structure DB where
  chans : List (ChannelKey × List ((Nat × Nat) × ColVal)) := []
  lastSeq : List (ChannelKey × (Nat × Nat)) := []
  msgIdIdx : List (Nat × (ChannelKey × Nat)) := []
  fromUidIdx : List (String × ChannelKey × Nat) := []
  clientMsgNoIdx : List (String × ChannelKey × Nat) := []
  timestampIdx : List (Nat × ChannelKey × Nat) := []
  msgCount : Nat := 0
deriving DecidableEq, Repr

def DB.empty : DB := {}

def getChan (db : DB) (ck : ChannelKey) : List ((Nat × Nat) × ColVal) :=
  (assocGet db.chans ck).getD []

/-- Add a key-only secondary-index row (value `nil` in pebble; set
semantics). -/
def addIdx [DecidableEq α] (l : List α) (x : α) : List α :=
  if x ∈ l then l else l ++ [x]

/-- `writeMessage` (source `message.go`, lines 807-915): the 13 column rows
keyed `(channelId, channelType, uint64(msg.MessageSeq), columnTag)`, plus the
`fromUid`, `messageId`, `clientMsgNo` and `timestamp` index rows. -/
def writeMessage (db : DB) (channelId : String) (channelType : Nat)
    (msg : Message) : DB :=
  let ck : ChannelKey := ⟨channelId, channelType⟩
  let seq := msg.messageSeq % 2 ^ 32
  let rows := getChan db ck
  let rows := setRow rows (seq, colHeader) (.byte (msg.framer % 2 ^ 8))
  let rows := setRow rows (seq, colSetting) (.byte (msg.setting % 2 ^ 8))
  let rows := setRow rows (seq, colExpire) (.u32 (msg.expire % 2 ^ 32))
  let rows := setRow rows (seq, colMessageId) (.i64 (wrapI64 msg.messageId))
  let rows := setRow rows (seq, colMessageSeq) (.u64 seq)
  let rows := setRow rows (seq, colClientMsgNo) (.str msg.clientMsgNo)
  let rows := setRow rows (seq, colTimestamp) (.i32 (wrapI32 msg.timestamp))
  let rows := setRow rows (seq, colChannelId) (.str msg.channelId)
  let rows := setRow rows (seq, colChannelType) (.byte (msg.channelType % 2 ^ 8))
  let rows := setRow rows (seq, colTopic) (.str msg.topic)
  let rows := setRow rows (seq, colFromUid) (.str msg.fromUid)
  let rows := setRow rows (seq, colPayload) (.bytes msg.payload)
  let rows := setRow rows (seq, colTerm) (.u64 (msg.term % 2 ^ 64))
  { db with
    chans := assocSet db.chans ck rows,
    fromUidIdx := addIdx db.fromUidIdx (msg.fromUid, ck, seq),
    msgIdIdx := assocSet db.msgIdIdx (intToU64 (wrapI64 msg.messageId)) (ck, seq),
    clientMsgNoIdx := addIdx db.clientMsgNoIdx (msg.clientMsgNo, ck, seq),
    timestampIdx := addIdx db.timestampIdx (intToU64 (wrapI32 msg.timestamp), ck, seq) }

/-- `setChannelLastMessageSeq` (source `message.go`, lines 624-631): value =
`seq(8) | setTimeNs(8)`; `time.Now().UnixNano()` is the explicit `now`
parameter. -/
def setChannelLastMessageSeqW (db : DB) (channelId : String) (channelType : Nat)
    (seq now : Nat) : DB :=
  { db with lastSeq := assocSet db.lastSeq ⟨channelId, channelType⟩ (seq, now) }

/-- `GetChannelLastMessageSeq` (source `message.go`, lines 407-422): a missing
row (`pebble.ErrNotFound`) yields `(0, 0)` with a nil error. -/
def GetChannelLastMessageSeq (db : DB) (channelId : String) (channelType : Nat) :
    Nat × Nat :=
  (assocGet db.lastSeq ⟨channelId, channelType⟩).getD (0, 0)

/-- The Go switch of `iteratorChannelMessagesDirection` (source `message.go`,
lines 690-719): decode one column row into the partial message.  The
`MessageSeq` column has no case there (the sequence comes from the key), so
it falls through to the identity. -/
def applyCol (m : Message) (col : Nat) (v : ColVal) : Message :=
  if col = colHeader then { m with framer := v.asByte }
  else if col = colSetting then { m with setting := v.asByte }
  else if col = colExpire then { m with expire := v.asU32 }
  else if col = colMessageId then { m with messageId := v.asI64 }
  else if col = colClientMsgNo then { m with clientMsgNo := v.asStr }
  else if col = colTimestamp then { m with timestamp := v.asI32 }
  else if col = colChannelId then { m with channelId := v.asStr }
  else if col = colChannelType then { m with channelType := v.asByte }
  else if col = colTopic then { m with topic := v.asStr }
  else if col = colFromUid then { m with fromUid := v.asStr }
  else if col = colPayload then { m with payload := v.asBytes }
  else if col = colTerm then { m with term := v.asU64 }
  else m

/-- Loop state of `iteratorChannelMessagesDirection`: `size`, `preMessageSeq`,
`preMessage`, the messages handed to `iterFnc` so far, `stopped` (the negation
of `lastNeedAppend` after a break) and `hasData`. -/
structure IterAcc where
  size : Nat
  preMessageSeq : Nat
  preMessage : Message
  emitted : List Message
  stopped : Bool
  hasData : Bool

def iterInit : IterAcc := ⟨0, 0, emptyMessage, [], false, false⟩

/-- One iteration of the scan loop (source `message.go`, lines 655-721):
boundary-triggered flush of the accumulated message (with the `limit` break),
then the column switch. -/
def iterStep (limit : Nat) (acc : IterAcc) (e : (Nat × Nat) × ColVal) : IterAcc :=
  if acc.stopped then acc
  else
    let seq := e.1.1
    let acc :=
      if acc.preMessageSeq ≠ seq then
        if acc.preMessageSeq ≠ 0 then
          let emitted := acc.emitted ++ [acc.preMessage]
          let size := acc.size + 1
          if limit ≠ 0 ∧ size ≥ limit then
            { acc with emitted := emitted, size := size, stopped := true }
          else
            { acc with emitted := emitted, size := size, preMessageSeq := seq, preMessage := { emptyMessage with messageSeq := seq % 2 ^ 32 } }
        else
          { acc with preMessageSeq := seq, preMessage := { emptyMessage with messageSeq := seq % 2 ^ 32 } }
      else acc
    if acc.stopped then acc
    else { acc with preMessage := applyCol acc.preMessage e.1.2 e.2, hasData := true }

/-- End-of-scan flush (source `message.go`, lines 722-727). -/
def iterFinalize (acc : IterAcc) : List Message :=
  if acc.stopped = false ∧ acc.hasData = true then acc.emitted ++ [acc.preMessage]
  else acc.emitted

/-- `iteratorChannelMessagesDirection` (source `message.go`, lines 637-731) as
the list of messages handed to `iterFnc` in order.  The Go loop positions the
iterator with `First()` (resp. `Last()`) but calls `Next()` (resp. `Prev()`)
BEFORE reading `iter.Key()`, so the first entry of the traversal is never
parsed: hence the `drop`-like `match` on the (possibly reversed) entry
list. -/
def iteratorChannelMessagesDirection (entries : List ((Nat × Nat) × ColVal))
    (limit : Nat) (reverse : Bool) : List Message :=
  let ordered := if reverse then entries.reverse else entries
  match ordered with
  | [] => []
  | _ :: rest => iterFinalize (rest.foldl (iterStep limit) iterInit)

/-- `iteratorChannelMessages` (source `message.go`, lines 633-635). -/
def iteratorChannelMessages (entries : List ((Nat × Nat) × ColVal))
    (limit : Nat) : List Message :=
  iteratorChannelMessagesDirection entries limit false

/-- Error kinds of the store operations (spec §7): `NotFound`, `WriteFailed`
(a failed batch commit), and the `fmt.Errorf` argument-validation error of
`TruncateLogTo`. -/
inductive DbErr where
  | notFound
  | writeFailed
  | invalidSeq
deriving DecidableEq, Repr

/-- `LoadMsg` (source `message.go`, lines 293-315): scan `[seq, seq+1)` with
`limit` 1; the `iterFnc` stores the first message and returns `false`, so the
result is the head of the emission list; an empty result is `ErrNotFound`. -/
def LoadMsg (db : DB) (channelId : String) (channelType : Nat) (seq : Nat) :
    Except DbErr Message :=
  let entries := scanSeq (getChan db ⟨channelId, channelType⟩) seq (seq + 1)
  let msg := (iteratorChannelMessages entries 1).headD emptyMessage
  if IsEmptyMessage msg then .error .notFound else .ok msg

/-- `GetMessage` (source `message.go`, lines 150-189): point-read the
`messageId` index for the 16-byte primary handle, then scan that message's
column range `[MinColumnKey, MaxColumnKey)` (which contains all 13 tags);
`limit` 0 and an `iterFnc` that stops after the first message. -/
def GetMessage (db : DB) (messageId : Nat) : Except DbErr Message :=
  match assocGet db.msgIdIdx messageId with
  | none => .error .notFound
  | some p =>
    let entries := scanSeq (getChan db p.1) p.2 (p.2 + 1)
    let msg := (iteratorChannelMessages entries 0).headD emptyMessage
    if IsEmptyMessage msg then .error .notFound else .ok msg

/-- `AppendMessages` (source `message.go`, lines 19-51): one batch per call;
for each message `writeMessage` then `setChannelLastMessageSeq(uint64(msg.
MessageSeq))`; `IncMessageCount(1)` goes to its own keyspace before the batch
commit; `commitOk` models the outcome of `batch.Commit(wk.sync)` — on a
failed commit none of the buffered rows reach the store. -/
def AppendMessages (db : DB) (channelId : String) (channelType : Nat)
    (msgs : List Message) (now : Nat) (commitOk : Bool) :
    Except DbErr Unit × DB :=
  let db1 : DB := { db with msgCount := db.msgCount + 1 }
  if commitOk then
    (.ok (), msgs.foldl
      (fun d m => setChannelLastMessageSeqW (writeMessage d channelId channelType m)
        channelId channelType (m.messageSeq % 2 ^ 32) now) db1)
  else (.error .writeFailed, db1)

/-- A sequence of successful `AppendMessages` calls. -/
def appendAll (db : DB) (channelId : String) (channelType : Nat)
    (batches : List (List Message)) (now : Nat) : DB :=
  batches.foldl (fun d b => (AppendMessages d channelId channelType b now true).2) db

/-- `TruncateLogTo` (source `message.go`, lines 368-399): reject `seq = 0`;
then a DIRECT `db.DeleteRange` of `[seq, MaxUint64)` outside any batch,
followed by a batch holding the same `DeleteRange` plus
`setChannelLastMessageSeq(seq-1)`; `commitOk` models the outcome of the batch
commit — on failure the direct delete has already happened. -/
def TruncateLogTo (db : DB) (channelId : String) (channelType : Nat)
    (messageSeq : Nat) (now : Nat) (commitOk : Bool) : Except DbErr Unit × DB :=
  if messageSeq = 0 then (.error .invalidSeq, db)
  else
    let ck : ChannelKey := ⟨channelId, channelType⟩
    let rows1 := deleteRangeRows (getChan db ck) messageSeq (2 ^ 64 - 1)
    let db1 : DB := { db with chans := assocSet db.chans ck rows1 }
    if commitOk then
      let rows2 := deleteRangeRows rows1 messageSeq (2 ^ 64 - 1)
      (.ok (), { db1 with chans := assocSet db1.chans ck rows2, lastSeq := assocSet db1.lastSeq ck (messageSeq - 1, now) })
    else (.error .writeFailed, db1)

/-- `AppendMessagesReq` as `writeMessagesBatch` consumes it. -/
structure AppendMessagesReq where
  channelId : String
  channelType : Nat
  messages : List Message
deriving DecidableEq, Repr

/-- `writeMessagesBatch` (source `message.go`, lines 129-148): per request,
`lastMsg := req.Messages[len(req.Messages)-1]` — on an empty slice that index
is out of range and Go panics, modelled as `none` — then every message is
written and `setChannelLastMessageSeq(uint64(lastMsg.MessageSeq))` recorded;
one commit for the whole shard batch. -/
def writeMessagesBatch (db : DB) (reqs : List AppendMessagesReq) (now : Nat) :
    Option DB :=
  match reqs with
  | [] => some db
  | req :: rest =>
    match req.messages.get? (req.messages.length - 1) with
    | none => none
    | some lastMsg =>
      let db1 := req.messages.foldl
        (fun d m => writeMessage d req.channelId req.channelType m) db
      writeMessagesBatch
        (setChannelLastMessageSeqW db1 req.channelId req.channelType
          (lastMsg.messageSeq % 2 ^ 32) now) rest now

/-- The precondition of C6: the batch's sequences continue `s+1, s+2, …`. -/
def consecutiveFrom (s : Nat) : List Message → Bool
  | [] => true
  | m :: rest => decide (m.messageSeq = s + 1) && consecutiveFrom (s + 1) rest

/-- Chained batches: each non-empty, each continuing where the previous last
sequence left off. -/
def batchesChain (s : Nat) : List (List Message) → Bool
  | [] => true
  | b :: rest => !b.isEmpty && consecutiveFrom s b && batchesChain (s + b.length) rest

/-- The appended message of the C4 failing input: every field non-default. -/
def exMsgC4 : Message := ⟨1, 42, "no1", 7, "c", 2, "t", "u", [1, 2, 3], 3, 5, 6, 9⟩

/-- The store after appending `exMsgC4` to channel `("c", 2)`. -/
def exDbC4 : DB := (AppendMessages DB.empty "c" 2 [exMsgC4] 0 true).2

/-- The appended message of the C5 example store. -/
def exMsgC5 : Message := { emptyMessage with messageSeq := 5, messageId := 7 }

/-- A store holding one message at sequence 5 of channel `("c", 1)`. -/
def exDbC5 : DB := (AppendMessages DB.empty "c" 1 [exMsgC5] 0 true).2

/-- Concrete batches for the C6 witness: sequences 1, then 2-3. -/
def exBatchesC6 : List (List Message) :=
  [[{ emptyMessage with messageSeq := 1 }],
   [{ emptyMessage with messageSeq := 2 }, { emptyMessage with messageSeq := 3 }]]

/-- Concrete message for the C10 witness. -/
def exMsgC10 : Message := { emptyMessage with messageSeq := 1, messageId := 9 }

end Wkdb

namespace Cluster

lemma leader_fold_inv (resps : List ReplicaChannelLastLogInfoResponse) :
    leaderInv resps (resps.foldl leaderStep (0, 0, 0)) := by
  induction resps using List.reverseRecOn with
  | nil =>
    exact ⟨by simp, Or.inl ⟨rfl, rfl, rfl⟩⟩
  | append_singleton xs x ih =>
    rw [List.foldl_append, List.foldl_cons, List.foldl_nil]
    set acc := xs.foldl leaderStep (0, 0, 0) with hacc
    obtain ⟨hmax, hldr⟩ := ih
    show leaderInv (xs ++ [x]) (leaderStep acc x)
    unfold leaderStep
    dsimp only
    split_ifs with h1 h2 h3
    · -- x.term strictly beats maxTerm
      constructor
      · intro r hr
        dsimp only
        rcases List.mem_append.mp hr with hr | hr
        · left
          rcases hmax r hr with h | ⟨he, _⟩ <;> omega
        · rcases List.mem_singleton.mp hr with rfl
          exact Or.inr ⟨rfl, le_refl _⟩
      · refine Or.inr ⟨xs, x, [], rfl, rfl, rfl, rfl, ?_⟩
        intro r hr h
        dsimp only at h
        obtain ⟨he, hi⟩ := h
        rcases hmax r hr with h | ⟨he2, _⟩ <;> omega
    · -- same term, x.logIndex strictly beats maxIndex
      constructor
      · intro r hr
        dsimp only
        rcases List.mem_append.mp hr with hr | hr
        · rcases hmax r hr with h | ⟨he, hle⟩
          · exact Or.inl h
          · exact Or.inr ⟨he, by omega⟩
        · rcases List.mem_singleton.mp hr with rfl
          exact Or.inr ⟨h2, le_refl _⟩
      · refine Or.inr ⟨xs, x, [], rfl, rfl, h2, rfl, ?_⟩
        intro r hr h
        dsimp only at h
        obtain ⟨he, hi⟩ := h
        rcases hmax r hr with h | ⟨he2, hle⟩ <;> omega
    · -- x does not beat (maxTerm, maxIndex): accumulator unchanged
      constructor
      · intro r hr
        dsimp only
        rcases List.mem_append.mp hr with hr | hr
        · exact hmax r hr
        · rcases List.mem_singleton.mp hr with rfl
          exact Or.inr ⟨h2, le_of_not_lt h3⟩
      · rcases hldr with h | ⟨pre, w, post, hsplit, hid, hterm, hidx, hfirst⟩
        · exact Or.inl h
        · exact Or.inr ⟨pre, w, post ++ [x], by rw [hsplit]; simp, hid, hterm, hidx, hfirst⟩
    · -- x.term strictly below maxTerm: accumulator unchanged
      have hxlt : x.resp.term < acc.2.2 := by omega
      constructor
      · intro r hr
        dsimp only
        rcases List.mem_append.mp hr with hr | hr
        · exact hmax r hr
        · rcases List.mem_singleton.mp hr with rfl
          exact Or.inl hxlt
      · rcases hldr with h | ⟨pre, w, post, hsplit, hid, hterm, hidx, hfirst⟩
        · exact Or.inl h
        · exact Or.inr ⟨pre, w, post ++ [x], by rw [hsplit]; simp, hid, hterm, hidx, hfirst⟩

/-- C1: if `channelLeaderIDByLogInfo` returns a non-zero `leaderId`, it is the
replicaId of a witness `w` of the input list such that every witness `r`
satisfies `(r.term, r.lastIndex) ≤ (w.term, w.lastIndex)` lexicographically,
and no witness before `w` in the list attains `(w.term, w.lastIndex)` — the
first maximal replica encountered wins. -/
theorem channelLeaderIDByLogInfo_leader_rule
    (resps : List ReplicaChannelLastLogInfoResponse)
    (h : channelLeaderIDByLogInfo resps ≠ 0) :
    ∃ pre w post, resps = pre ++ w :: post ∧
      w.replicaId = channelLeaderIDByLogInfo resps ∧
      (∀ r ∈ resps, r.resp.term < w.resp.term ∨
        (r.resp.term = w.resp.term ∧ r.resp.logIndex ≤ w.resp.logIndex)) ∧
      ∀ r ∈ pre, ¬(r.resp.term = w.resp.term ∧ r.resp.logIndex = w.resp.logIndex) := by
  obtain ⟨hmax, hldr⟩ := leader_fold_inv resps
  rcases hldr with ⟨_, _, h0⟩ | ⟨pre, w, post, hsplit, hid, hterm, hidx, hfirst⟩
  · exact absurd h0 h
  · refine ⟨pre, w, post, hsplit, hid, ?_, ?_⟩
    · intro r hr
      rw [hterm, hidx]
      exact hmax r hr
    · intro r hr
      rw [hterm, hidx]
      exact hfirst r hr

/-- Witness for C1 at a concrete input (the spec's scenario S2, where the
leader is replica 3). -/
theorem channelLeaderIDByLogInfo_leader_rule_witness :
    channelLeaderIDByLogInfo exWitnessesC1 ≠ 0 ∧
      ∃ pre w post, exWitnessesC1 = pre ++ w :: post ∧
        w.replicaId = channelLeaderIDByLogInfo exWitnessesC1 ∧
        (∀ r ∈ exWitnessesC1, r.resp.term < w.resp.term ∨
          (r.resp.term = w.resp.term ∧ r.resp.logIndex ≤ w.resp.logIndex)) ∧
        ∀ r ∈ pre, ¬(r.resp.term = w.resp.term ∧ r.resp.logIndex = w.resp.logIndex) :=
  ⟨by decide, channelLeaderIDByLogInfo_leader_rule exWitnessesC1 (by decide)⟩

/-- C2 counterexample: with `ChannelMaxReplicaCount = 1` the single collected
witness meets the quorum, yet the round answers `ErrNoLeader`, not a success —
"emits a success iff the witness count reaches the quorum" fails
right-to-left. -/
theorem electionForReq_quorum_met_without_success :
    quorum 1 ≤ (collectLastInfoResps exRespsMapC2 exReqC2).length ∧
      electionForReq 1 exRespsMapC2 exReqC2 = .err .noLeader := by
  decide

/-- C2 amended: below quorum the round answers exactly `NotEnoughReplicas`;
a success is emitted iff the witness count reaches the quorum AND the chosen
leader id is non-zero (otherwise `NoLeader`). -/
theorem electionForReq_quorum_rule (maxReplicaCount : Nat)
    (m : List (Nat × List ChannelLastLogInfoResponse)) (req : ElectionReq) :
    (electionForReq maxReplicaCount m req = .err .notEnoughReplicas ↔
      (collectLastInfoResps m req).length < quorum maxReplicaCount) ∧
    ((∃ c, electionForReq maxReplicaCount m req = .ok c) ↔
      quorum maxReplicaCount ≤ (collectLastInfoResps m req).length ∧
        channelLeaderIDByLogInfo (collectLastInfoResps m req) ≠ 0) := by
  by_cases hq : (collectLastInfoResps m req).length < quorum maxReplicaCount
  · have hres : electionForReq maxReplicaCount m req = .err .notEnoughReplicas := by
      simp only [electionForReq]
      rw [if_pos hq]
    rw [hres]
    refine ⟨⟨fun _ => hq, fun _ => rfl⟩, ?_, ?_⟩
    · rintro ⟨c, hc⟩
      exact ElectionResult.noConfusion hc
    · rintro ⟨hge, _⟩
      omega
  · by_cases hl : channelLeaderIDByLogInfo (collectLastInfoResps m req) = 0
    · have hres : electionForReq maxReplicaCount m req = .err .noLeader := by
        simp only [electionForReq]
        rw [if_neg hq, if_pos hl]
      rw [hres]
      refine ⟨⟨fun h => ?_, fun h => absurd h hq⟩, ?_, ?_⟩
      · injection h with h
        exact ElectionError.noConfusion h
      · rintro ⟨c, hc⟩
        exact ElectionResult.noConfusion hc
      · rintro ⟨_, hne⟩
        exact absurd hl hne
    · have hres : electionForReq maxReplicaCount m req = .ok { req.cfg with term := (req.cfg.term + 1) % 2 ^ 32, leaderId := channelLeaderIDByLogInfo (collectLastInfoResps m req) } := by
        simp only [electionForReq]
        rw [if_neg hq, if_neg hl]
      rw [hres]
      refine ⟨⟨fun h => ElectionResult.noConfusion h, fun h => absurd h hq⟩, ?_, ?_⟩
      · exact fun _ => ⟨le_of_not_lt hq, hl⟩
      · exact fun _ => ⟨_, rfl⟩

/-- C3 counterexample: at input term `2 ^ 32 - 1` the successful election
emits term `0` (the Go `uint32` increment wraps), not "input term plus exactly
one". -/
theorem electionForReq_term_wraps :
    electionForReq 1 exRespsMapC3 exReqC3 = .ok ⟨"c", 2, [1], 0, 1⟩ ∧
      (0 : Nat) ≠ exReqC3.cfg.term + 1 := by
  constructor
  · decide
  · decide

/-- C3 amended: every successful election emits the input config unchanged in
`channelId`, `channelType` and `replicas`, with `leaderId` set to the non-zero
chosen replica and `term` set to `(input term + 1) % 2 ^ 32` (equal to
`input term + 1` whenever it does not overflow the Go `uint32`). -/
theorem electionForReq_frame (maxReplicaCount : Nat)
    (m : List (Nat × List ChannelLastLogInfoResponse)) (req : ElectionReq)
    (c : ChannelClusterConfig)
    (h : electionForReq maxReplicaCount m req = .ok c) :
    c.term = (req.cfg.term + 1) % 2 ^ 32 ∧
    c.leaderId = channelLeaderIDByLogInfo (collectLastInfoResps m req) ∧
    c.leaderId ≠ 0 ∧
    c.channelId = req.cfg.channelId ∧
    c.channelType = req.cfg.channelType ∧
    c.replicas = req.cfg.replicas := by
  have hq : ¬(collectLastInfoResps m req).length < quorum maxReplicaCount := by
    intro hq
    have hres : electionForReq maxReplicaCount m req = .err .notEnoughReplicas := by
      simp only [electionForReq]
      rw [if_pos hq]
    rw [hres] at h
    exact ElectionResult.noConfusion h
  have hl : ¬channelLeaderIDByLogInfo (collectLastInfoResps m req) = 0 := by
    intro hl
    have hres : electionForReq maxReplicaCount m req = .err .noLeader := by
      simp only [electionForReq]
      rw [if_neg hq, if_pos hl]
    rw [hres] at h
    exact ElectionResult.noConfusion h
  have hres : electionForReq maxReplicaCount m req = .ok { req.cfg with term := (req.cfg.term + 1) % 2 ^ 32, leaderId := channelLeaderIDByLogInfo (collectLastInfoResps m req) } := by
    simp only [electionForReq]
    rw [if_neg hq, if_neg hl]
  rw [hres] at h
  injection h with h
  subst h
  exact ⟨rfl, rfl, hl, rfl, rfl, rfl⟩

/-- Witness for the amended C3 at a concrete successful election
(term 7 → 8, leader 1). -/
theorem electionForReq_frame_witness :
    electionForReq 1 exRespsMapC3w exReqC3w = .ok exCfgC3w ∧
      (exCfgC3w.term = (exReqC3w.cfg.term + 1) % 2 ^ 32 ∧
        exCfgC3w.leaderId =
          channelLeaderIDByLogInfo (collectLastInfoResps exRespsMapC3w exReqC3w) ∧
        exCfgC3w.leaderId ≠ 0 ∧
        exCfgC3w.channelId = exReqC3w.cfg.channelId ∧
        exCfgC3w.channelType = exReqC3w.cfg.channelType ∧
        exCfgC3w.replicas = exReqC3w.cfg.replicas) :=
  ⟨by decide, electionForReq_frame 1 exRespsMapC3w exReqC3w exCfgC3w (by decide)⟩

/-- C8: the worker loop's drain bound compares the cumulative `reqLen` (never
reset) against `MaxChannelElectionBatchLen`, so with the batch limit 2 and
four queued requests the first iteration submits `[1, 2]` but the second
submits only `[3]` although two requests are available — the batch is NOT
`min(available, MaxChannelElectionBatchLen)` once earlier iterations have
consumed the allowance. -/
theorem loopIteration_reqLen_never_reset :
    loopIteration 2 [1, 2, 3, 4] 0 = some ([1, 2], [3, 4], 2) ∧
      loopIteration 2 [3, 4] 2 = some ([3], [4], 3) ∧
      ¬(1 = min (List.length [3, 4]) 2) := by
  decide

/-- C9 counterexample: with the coordinator stopping and space available, the
Go `select` may pick the send case, so `addElectionReq` enqueues and returns
`nil` instead of failing with `Stopped`. -/
theorem addElectionReq_stopping_can_enqueue :
    addElectionReq true 0 ElectionQueueCap true = (.ok, 1) := by
  decide

/-- C9 amended: `addElectionReq` never blocks; with the queue full and the
coordinator not stopping it fails with `QueueFull` and the queue is unchanged;
with space and not stopping it enqueues and returns `nil`; when stopping it
fails with `Stopped` if the queue is full or the scheduler picks the stop
case, but with space available it may instead enqueue and return `nil`. -/
theorem addElectionReq_policy (stopping : Bool) (queueLen cap : Nat)
    (pickSend : Bool) :
    ((addElectionReq stopping queueLen cap pickSend).1 = .queueFull ↔
      stopping = false ∧ cap ≤ queueLen) ∧
    ((addElectionReq stopping queueLen cap pickSend).1 = .ok ↔
      queueLen < cap ∧ (stopping = false ∨ pickSend = true)) ∧
    ((addElectionReq stopping queueLen cap pickSend).1 = .stopped ↔
      stopping = true ∧ (cap ≤ queueLen ∨ pickSend = false)) ∧
    (addElectionReq stopping queueLen cap pickSend).2 =
      (if (addElectionReq stopping queueLen cap pickSend).1 = .ok then queueLen + 1
       else queueLen) := by
  unfold addElectionReq
  dsimp only
  rcases stopping <;> rcases pickSend <;> split_ifs <;> simp_all

lemma assocAppend_sound [DecidableEq α] (m : List (α × List β)) (k : α) (v : β) :
    ∀ p ∈ assocAppend m k v, ∀ x ∈ p.2,
      (∃ l2, (p.1, l2) ∈ m ∧ x ∈ l2) ∨ (p.1 = k ∧ x = v) := by
  induction m with
  | nil =>
    intro p hp x hx
    rcases List.mem_singleton.mp hp with rfl
    rcases List.mem_singleton.mp hx with rfl
    exact Or.inr ⟨rfl, rfl⟩
  | cons hd rest ih =>
    obtain ⟨k2, l2⟩ := hd
    intro p hp x hx
    rw [assocAppend] at hp
    split_ifs at hp with hk
    · rcases List.mem_cons.mp hp with rfl | hp
      · rcases List.mem_append.mp hx with hx | hx
        · exact Or.inl ⟨l2, List.mem_cons_self _ _, hx⟩
        · rcases List.mem_singleton.mp hx with rfl
          exact Or.inr ⟨hk.symm, rfl⟩
      · exact Or.inl ⟨p.2, List.mem_cons_of_mem _ hp, hx⟩
    · rcases List.mem_cons.mp hp with rfl | hp
      · exact Or.inl ⟨l2, List.mem_cons_self _ _, hx⟩
      · rcases ih p hp x hx with ⟨l3, hl3, hxl3⟩ | h
        · exact Or.inl ⟨l3, List.mem_cons_of_mem _ hl3, hxl3⟩
        · exact Or.inr h

lemma assocAppend_cover_new [DecidableEq α] (m : List (α × List β)) (k : α) (v : β) :
    ∃ l, (k, l) ∈ assocAppend m k v ∧ v ∈ l := by
  induction m with
  | nil => exact ⟨[v], List.mem_singleton.mpr rfl, List.mem_singleton.mpr rfl⟩
  | cons hd rest ih =>
    obtain ⟨k2, l2⟩ := hd
    rw [assocAppend]
    split_ifs with hk
    · subst hk
      exact ⟨l2 ++ [v], List.mem_cons_self _ _,
        List.mem_append.mpr (Or.inr (List.mem_singleton.mpr rfl))⟩
    · obtain ⟨l, hl, hv⟩ := ih
      exact ⟨l, List.mem_cons_of_mem _ hl, hv⟩

lemma assocAppend_cover_old [DecidableEq α] (m : List (α × List β)) (k : α) (v : β) :
    ∀ (a : α) (l : List β), (a, l) ∈ m →
      ∃ l2, (a, l2) ∈ assocAppend m k v ∧ l ⊆ l2 := by
  induction m with
  | nil => intro a l h; cases h
  | cons hd rest ih =>
    obtain ⟨k2, l2⟩ := hd
    intro a l h
    rw [assocAppend]
    split_ifs with hk
    · rcases List.mem_cons.mp h with heq | h
      · injection heq with h1 h2
        subst h1
        subst h2
        exact ⟨l ++ [v], List.mem_cons_self _ _, List.subset_append_left _ _⟩
      · exact ⟨l, List.mem_cons_of_mem _ h, List.Subset.refl _⟩
    · rcases List.mem_cons.mp h with heq | h
      · injection heq with h1 h2
        subst h1
        subst h2
        exact ⟨l, List.mem_cons_self _ _, List.Subset.refl _⟩
      · obtain ⟨l3, hl3, hsub⟩ := ih a l h
        exact ⟨l3, List.mem_cons_of_mem _ hl3, hsub⟩

lemma innerFold_sound (rids : List Nat) (req : ElectionReq)
    (P : Nat → ElectionReq → Prop) :
    ∀ (m0 : List (Nat × List ElectionReq)),
      (∀ p ∈ m0, ∀ r ∈ p.2, P p.1 r) →
      (∀ rid ∈ rids, P rid req) →
      ∀ p ∈ rids.foldl (fun m rid => assocAppend m rid req) m0, ∀ r ∈ p.2, P p.1 r := by
  induction rids with
  | nil => intro m0 h0 _; exact h0
  | cons rid rids ih =>
    intro m0 h0 hreq
    rw [List.foldl_cons]
    refine ih _ ?_ (fun a ha => hreq a (List.mem_cons_of_mem _ ha))
    intro p hp r hr
    rcases assocAppend_sound m0 rid req p hp r hr with ⟨l2, hl2, hrl2⟩ | ⟨hpk, hrv⟩
    · exact h0 (p.1, l2) hl2 r hrl2
    · rw [hpk, hrv]
      exact hreq rid (List.mem_cons_self _ _)

lemma groupByReplica_sound (reqs : List ElectionReq) :
    ∀ p ∈ groupByReplica reqs, ∀ r ∈ p.2, r ∈ reqs ∧ p.1 ∈ r.cfg.replicas := by
  have main : ∀ (l : List ElectionReq) (m0 : List (Nat × List ElectionReq)),
      (∀ p ∈ m0, ∀ r ∈ p.2, r ∈ reqs ∧ p.1 ∈ r.cfg.replicas) →
      (∀ r ∈ l, r ∈ reqs) →
      ∀ p ∈ l.foldl
          (fun m req => req.cfg.replicas.foldl (fun m rid => assocAppend m rid req) m) m0,
        ∀ r ∈ p.2, r ∈ reqs ∧ p.1 ∈ r.cfg.replicas := by
    intro l
    induction l with
    | nil => intro m0 h0 _; exact h0
    | cons req l ih =>
      intro m0 h0 hl
      rw [List.foldl_cons]
      refine ih _ ?_ (fun r hr => hl r (List.mem_cons_of_mem _ hr))
      exact innerFold_sound req.cfg.replicas req
        (fun rid r => r ∈ reqs ∧ rid ∈ r.cfg.replicas) m0 h0
        (fun rid hrid => ⟨hl req (List.mem_cons_self _ _), hrid⟩)
  exact main reqs [] (by intro p hp; cases hp) (fun _ h => h)

lemma innerFold_mono (rids : List Nat) (req : ElectionReq) :
    ∀ (m0 : List (Nat × List ElectionReq)) (a : Nat) (l : List ElectionReq),
      (a, l) ∈ m0 →
      ∃ l2, (a, l2) ∈ rids.foldl (fun m rid => assocAppend m rid req) m0 ∧ l ⊆ l2 := by
  induction rids with
  | nil => intro m0 a l h; exact ⟨l, h, List.Subset.refl _⟩
  | cons rid rids ih =>
    intro m0 a l h
    rw [List.foldl_cons]
    obtain ⟨l2, hl2, hsub⟩ := assocAppend_cover_old m0 rid req a l h
    obtain ⟨l3, hl3, hsub2⟩ := ih _ a l2 hl2
    exact ⟨l3, hl3, List.Subset.trans hsub hsub2⟩

lemma innerFold_cover (rids : List Nat) (req : ElectionReq) :
    ∀ (m0 : List (Nat × List ElectionReq)) (rid : Nat), rid ∈ rids →
      ∃ rs, (rid, rs) ∈ rids.foldl (fun m r2 => assocAppend m r2 req) m0 ∧ req ∈ rs := by
  induction rids with
  | nil => intro m0 rid h; cases h
  | cons hd rids ih =>
    intro m0 rid h
    rw [List.foldl_cons]
    rcases List.mem_cons.mp h with rfl | h
    · obtain ⟨l, hl, hreq⟩ := assocAppend_cover_new m0 rid req
      obtain ⟨l2, hl2, hsub⟩ := innerFold_mono rids req _ rid l hl
      exact ⟨l2, hl2, hsub hreq⟩
    · exact ih _ rid h

lemma outerFold_mono (l : List ElectionReq) :
    ∀ (m0 : List (Nat × List ElectionReq)) (a : Nat) (li : List ElectionReq),
      (a, li) ∈ m0 →
      ∃ l2, (a, l2) ∈ l.foldl
          (fun m req => req.cfg.replicas.foldl (fun m rid => assocAppend m rid req) m) m0 ∧
        li ⊆ l2 := by
  induction l with
  | nil => intro m0 a li h; exact ⟨li, h, List.Subset.refl _⟩
  | cons req l ih =>
    intro m0 a li h
    rw [List.foldl_cons]
    obtain ⟨l2, hl2, hsub⟩ := innerFold_mono req.cfg.replicas req m0 a li h
    obtain ⟨l3, hl3, hsub2⟩ := ih _ a l2 hl2
    exact ⟨l3, hl3, List.Subset.trans hsub hsub2⟩

lemma groupByReplica_cover (reqs : List ElectionReq) (r : ElectionReq) (rid : Nat)
    (hr : r ∈ reqs) (hrid : rid ∈ r.cfg.replicas) :
    ∃ rs, (rid, rs) ∈ groupByReplica reqs ∧ r ∈ rs := by
  have main : ∀ (l : List ElectionReq) (m0 : List (Nat × List ElectionReq)), r ∈ l →
      ∃ rs, (rid, rs) ∈ l.foldl
          (fun m req => req.cfg.replicas.foldl (fun m rid => assocAppend m rid req) m) m0 ∧
        r ∈ rs := by
    intro l
    induction l with
    | nil => intro m0 h; cases h
    | cons req l ih =>
      intro m0 h
      rw [List.foldl_cons]
      rcases List.mem_cons.mp h with rfl | h
      · obtain ⟨rs, hrs, hmem⟩ := innerFold_cover r.cfg.replicas r m0 rid hrid
        obtain ⟨rs2, hrs2, hsub⟩ := outerFold_mono l _ rid rs hrs
        exact ⟨rs2, hrs2, hsub hmem⟩
      · exact ih _ h
  exact main reqs [] hr

lemma localInfos_error_src (env : WCEnv) (rs : List ElectionReq) (e : MlsErr) :
    localInfos env rs = .error e →
      ∃ r ∈ rs, env.lastIndexAndTerm r.ch = .error e := by
  induction rs with
  | nil => intro h; cases h
  | cons r rest ih =>
    intro h
    rw [localInfos] at h
    rcases hr : env.lastIndexAndTerm r.ch with e2 | p
    · rw [hr] at h
      injection h with h
      subst h
      exact ⟨r, List.mem_cons_self _ _, hr⟩
    · rw [hr] at h
      rcases ht : localInfos env rest with e2 | tl
      · rw [ht] at h
        injection h with h
        subst h
        obtain ⟨r2, hr2, he2⟩ := ih ht
        exact ⟨r2, List.mem_cons_of_mem _ hr2, he2⟩
      · rw [ht] at h
        cases h

lemma localInfos_ok_of (env : WCEnv) (rs : List ElectionReq)
    (h : ∀ r ∈ rs, isOkE (env.lastIndexAndTerm r.ch) = true) :
    isOkE (localInfos env rs) = true := by
  induction rs with
  | nil => rfl
  | cons r rest ih =>
    rw [localInfos]
    have hr := h r (List.mem_cons_self _ _)
    rcases he : env.lastIndexAndTerm r.ch with e | p
    · rw [he] at hr
      simp [isOkE] at hr
    · have ht := ih (fun r2 h2 => h r2 (List.mem_cons_of_mem _ h2))
      rcases h2 : localInfos env rest with e | tl
      · rw [h2] at ht
        simp [isOkE] at ht
      · rfl

lemma localInfos_all_ok (env : WCEnv) (rs : List ElectionReq) :
    ∀ (l : List ChannelLastLogInfoResponse), localInfos env rs = .ok l →
      ∀ r ∈ rs, isOkE (env.lastIndexAndTerm r.ch) = true := by
  induction rs with
  | nil => intro l _ r hr; cases hr
  | cons r rest ih =>
    intro l h
    rw [localInfos] at h
    rcases he : env.lastIndexAndTerm r.ch with e | p
    · rw [he] at h
      cases h
    · rw [he] at h
      rcases h2 : localInfos env rest with e | tl
      · rw [h2] at h
        cases h
      · rw [h2] at h
        intro r2 hr2
        rcases List.mem_cons.mp hr2 with rfl | hr2
        · rw [he]; rfl
        · exact ih tl h2 r2 hr2

lemma collectGrouped_error_src (env : WCEnv) (gm : List (Nat × List ElectionReq))
    (e : MlsErr) :
    collectGrouped env gm = .error e →
      ∃ rs, (env.nodeId, rs) ∈ gm ∧ env.online env.nodeId = true ∧
        localInfos env rs = .error e := by
  induction gm with
  | nil => intro h; cases h
  | cons p rest ih =>
    obtain ⟨rid, rs⟩ := p
    intro h
    rw [collectGrouped] at h
    split_ifs at h with hon hself hpres
    · obtain ⟨rs2, hmem, hrest⟩ := ih h
      exact ⟨rs2, List.mem_cons_of_mem _ hmem, hrest⟩
    · have hon2 : env.online rid = true := by
        rcases hb : env.online rid with _ | _
        · exact absurd hb hon
        · rfl
      rcases hloc : localInfos env rs with e2 | infos
      · rw [hloc] at h
        injection h with h
        subst h
        refine ⟨rs, ?_, ?_, hloc⟩
        · rw [← hself]
          exact List.mem_cons_self _ _
        · rw [← hself]
          exact hon2
      · rw [hloc] at h
        rcases hcr : collectGrouped env rest with e2 | m
        · rw [hcr] at h
          injection h with h
          subst h
          obtain ⟨rs2, hmem, hrest⟩ := ih hcr
          exact ⟨rs2, List.mem_cons_of_mem _ hmem, hrest⟩
        · rw [hcr] at h
          cases h
    · obtain ⟨rs2, hmem, hrest⟩ := ih h
      exact ⟨rs2, List.mem_cons_of_mem _ hmem, hrest⟩
    · rcases hrpc : env.rpc rid (rs.map fun r => ⟨r.ch.channelId, r.ch.channelType⟩) with
        _ | resps
      · rw [hrpc] at h
        obtain ⟨rs2, hmem, hrest⟩ := ih h
        exact ⟨rs2, List.mem_cons_of_mem _ hmem, hrest⟩
      · rw [hrpc] at h
        rcases hcr : collectGrouped env rest with e2 | m
        · rw [hcr] at h
          injection h with h
          subst h
          obtain ⟨rs2, hmem, hrest⟩ := ih hcr
          exact ⟨rs2, List.mem_cons_of_mem _ hmem, hrest⟩
        · rw [hcr] at h
          cases h

lemma collectGrouped_ok_of (env : WCEnv) (gm : List (Nat × List ElectionReq))
    (h : ∀ rs, (env.nodeId, rs) ∈ gm → ∀ r ∈ rs, isOkE (env.lastIndexAndTerm r.ch) = true) :
    isOkE (collectGrouped env gm) = true := by
  induction gm with
  | nil => rfl
  | cons p rest ih =>
    obtain ⟨rid, rs⟩ := p
    have hrest := ih (fun rs2 hmem => h rs2 (List.mem_cons_of_mem _ hmem))
    rw [collectGrouped]
    split_ifs with hon hself hpres
    · exact hrest
    · have hloc : isOkE (localInfos env rs) = true := by
        refine localInfos_ok_of env rs (h rs ?_)
        rw [← hself]
        exact List.mem_cons_self _ _
      rcases h2 : localInfos env rs with e | infos
      · rw [h2] at hloc
        simp [isOkE] at hloc
      · rcases h3 : collectGrouped env rest with e | m
        · rw [h3] at hrest
          simp [isOkE] at hrest
        · rfl
    · exact hrest
    · rcases hrpc : env.rpc rid (rs.map fun r => ⟨r.ch.channelId, r.ch.channelType⟩) with
        _ | resps
      · simp only [hrpc]
        exact hrest
      · simp only [hrpc]
        rcases h3 : collectGrouped env rest with e | m
        · rw [h3] at hrest
          simp [isOkE] at hrest
        · simp only [h3]
          rfl

lemma collectGrouped_error_propagate (env : WCEnv)
    (gm : List (Nat × List ElectionReq)) (rs : List ElectionReq) (e : MlsErr)
    (hon : env.online env.nodeId = true) :
    (env.nodeId, rs) ∈ gm → localInfos env rs = .error e →
      ∃ e2, collectGrouped env gm = .error e2 := by
  induction gm with
  | nil => intro hmem _; cases hmem
  | cons p rest ih =>
    obtain ⟨rid, rs2⟩ := p
    intro hmem hloc
    rw [collectGrouped]
    split_ifs with hon2 hself hpres
    · rcases List.mem_cons.mp hmem with heq | hmem2
      · injection heq with h1 h2
        rw [← h1, hon] at hon2
        cases hon2
      · exact ih hmem2 hloc
    · rcases List.mem_cons.mp hmem with heq | hmem2
      · injection heq with h1 h2
        subst h2
        rw [hloc]
        exact ⟨e, rfl⟩
      · rcases h2 : localInfos env rs2 with e2 | infos
        · exact ⟨e2, rfl⟩
        · obtain ⟨e3, h3⟩ := ih hmem2 hloc
          rw [h3]
          exact ⟨e3, rfl⟩
    · rcases List.mem_cons.mp hmem with heq | hmem2
      · injection heq with h1 h2
        exact absurd h1.symm hself
      · exact ih hmem2 hloc
    · rcases List.mem_cons.mp hmem with heq | hmem2
      · injection heq with h1 h2
        exact absurd h1.symm hself
      · rcases hrpc : env.rpc rid (rs2.map fun r => ⟨r.ch.channelId, r.ch.channelType⟩) with
          _ | resps
        · simp only [hrpc]
          exact ih hmem2 hloc
        · simp only [hrpc]
          obtain ⟨e3, h3⟩ := ih hmem2 hloc
          simp only [h3]
          exact ⟨e3, rfl⟩

/-- Completeness of the aggregated map: a grouped, online, remote replica
with a handle and a successful RPC has its `(replicaId, responses)` entry in
the returned map. -/
lemma collectGrouped_rpc_complete (env : WCEnv) :
    ∀ (gm : List (Nat × List ElectionReq))
      (m : List (Nat × List ChannelLastLogInfoResponse)) (rid : Nat)
      (rs : List ElectionReq) (resps : List ChannelLastLogInfoResponse),
      collectGrouped env gm = .ok m → (rid, rs) ∈ gm → env.online rid = true →
      rid ≠ env.nodeId → env.nodePresent rid = true →
      env.rpc rid (rs.map (fun r => ⟨r.ch.channelId, r.ch.channelType⟩)) = some resps →
      (rid, resps) ∈ m := by
  intro gm
  induction gm with
  | nil => intro m rid rs resps _ hmem _ _ _ _; cases hmem
  | cons p rest ih =>
    obtain ⟨rid2, rs2⟩ := p
    intro m rid rs resps h hmem hon hne hpres hrpc
    rw [collectGrouped] at h
    split_ifs at h with hon2 hself hpres2
    · rcases List.mem_cons.mp hmem with heq | hmem2
      · injection heq with h1 h2
        rw [← h1, hon] at hon2
        cases hon2
      · exact ih m rid rs resps h hmem2 hon hne hpres hrpc
    · rcases hloc : localInfos env rs2 with e | infos
      · rw [hloc] at h
        cases h
      · rw [hloc] at h
        rcases hcr : collectGrouped env rest with e | m2
        · rw [hcr] at h
          cases h
        · rw [hcr] at h
          injection h with h
          subst h
          rcases List.mem_cons.mp hmem with heq | hmem2
          · injection heq with h1 h2
            exact absurd (h1.trans hself) hne
          · exact List.mem_cons_of_mem _ (ih m2 rid rs resps hcr hmem2 hon hne hpres hrpc)
    · rcases List.mem_cons.mp hmem with heq | hmem2
      · injection heq with h1 h2
        rw [← h1, hpres] at hpres2
        cases hpres2
      · exact ih m rid rs resps h hmem2 hon hne hpres hrpc
    · rcases hrpc2 : env.rpc rid2 (rs2.map fun r => ⟨r.ch.channelId, r.ch.channelType⟩) with
        _ | resps2
      · rw [hrpc2] at h
        rcases List.mem_cons.mp hmem with heq | hmem2
        · injection heq with h1 h2
          subst h2
          rw [← h1, hrpc] at hrpc2
          cases hrpc2
        · exact ih m rid rs resps h hmem2 hon hne hpres hrpc
      · rw [hrpc2] at h
        rcases hcr : collectGrouped env rest with e | m2
        · rw [hcr] at h
          cases h
        · rw [hcr] at h
          injection h with h
          subst h
          rcases List.mem_cons.mp hmem with heq | hmem2
          · injection heq with h1 h2
            subst h2
            rw [← h1] at hrpc2
            rw [hrpc] at hrpc2
            injection hrpc2 with h3
            rw [h1, ← h3]
            exact List.mem_cons_self _ _
          · exact List.mem_cons_of_mem _ (ih m2 rid rs resps hcr hmem2 hon hne hpres hrpc)

/-- Soundness of the aggregated map: every entry of the returned map comes
from an online grouped replica — the local one via `localInfos`, or a remote
one with a handle whose RPC returned exactly those responses. -/
lemma collectGrouped_mem_src (env : WCEnv) :
    ∀ (gm : List (Nat × List ElectionReq))
      (m : List (Nat × List ChannelLastLogInfoResponse)) (rid : Nat)
      (resps : List ChannelLastLogInfoResponse),
      collectGrouped env gm = .ok m → (rid, resps) ∈ m →
      ∃ rs, (rid, rs) ∈ gm ∧ env.online rid = true ∧
        ((rid = env.nodeId ∧ localInfos env rs = .ok resps) ∨
          (rid ≠ env.nodeId ∧ env.nodePresent rid = true ∧
            env.rpc rid (rs.map (fun r => ⟨r.ch.channelId, r.ch.channelType⟩)) = some resps)) := by
  intro gm
  induction gm with
  | nil =>
    intro m rid resps h hmem
    injection h with h
    subst h
    cases hmem
  | cons p rest ih =>
    obtain ⟨rid2, rs2⟩ := p
    intro m rid resps h hmem
    rw [collectGrouped] at h
    split_ifs at h with hon2 hself hpres2
    · obtain ⟨rs, hrs, hrest⟩ := ih m rid resps h hmem
      exact ⟨rs, List.mem_cons_of_mem _ hrs, hrest⟩
    · rcases hloc : localInfos env rs2 with e | infos
      · rw [hloc] at h
        cases h
      · rw [hloc] at h
        rcases hcr : collectGrouped env rest with e | m2
        · rw [hcr] at h
          cases h
        · rw [hcr] at h
          injection h with h
          subst h
          rcases List.mem_cons.mp hmem with heq | hmem2
          · injection heq with h1 h2
            subst h2
            subst h1
            have hon3 : env.online rid = true := by
              rcases hb : env.online rid with _ | _
              · exact absurd hb hon2
              · rfl
            exact ⟨rs2, List.mem_cons_self _ _, hon3, Or.inl ⟨hself, hloc⟩⟩
          · obtain ⟨rs, hrs, hrest⟩ := ih m2 rid resps hcr hmem2
            exact ⟨rs, List.mem_cons_of_mem _ hrs, hrest⟩
    · obtain ⟨rs, hrs, hrest⟩ := ih m rid resps h hmem
      exact ⟨rs, List.mem_cons_of_mem _ hrs, hrest⟩
    · rcases hrpc2 : env.rpc rid2 (rs2.map fun r => ⟨r.ch.channelId, r.ch.channelType⟩) with
        _ | resps2
      · rw [hrpc2] at h
        obtain ⟨rs, hrs, hrest⟩ := ih m rid resps h hmem
        exact ⟨rs, List.mem_cons_of_mem _ hrs, hrest⟩
      · rw [hrpc2] at h
        rcases hcr : collectGrouped env rest with e | m2
        · rw [hcr] at h
          cases h
        · rw [hcr] at h
          injection h with h
          subst h
          rcases List.mem_cons.mp hmem with heq | hmem2
          · injection heq with h1 h2
            subst h2
            subst h1
            have hon3 : env.online rid = true := by
              rcases hb : env.online rid with _ | _
              · exact absurd hb hon2
              · rfl
            have hpres3 : env.nodePresent rid = true := by
              rcases hb : env.nodePresent rid with _ | _
              · exact absurd hb hpres2
              · rfl
            exact ⟨rs2, List.mem_cons_self _ _, hon3, Or.inr ⟨hself, hpres3, hrpc2⟩⟩
          · obtain ⟨rs, hrs, hrest⟩ := ih m2 rid resps hcr hmem2
            exact ⟨rs, List.mem_cons_of_mem _ hrs, hrest⟩

/-- C7: witness collection absorbs remote failures but aborts on a local MLS
read failure.  (1) If every local read the batch can trigger succeeds, the
collection succeeds — whatever the liveness oracle, the remote handles and
the RPC outcomes are, so a remote RPC error or an absent handle never causes
an error.  (2) Any returned error is the error of a local `LastIndexAndTerm`
read for a request whose replicas include the local node, and the election
round then delivers exactly that error to every request of the batch.
(3) Conversely, if the local node is online, is a replica of some request,
and its read fails, the collection returns an error.  (4) On success the
witnesses gathered from the healthy replicas are still returned: every
grouped, online, remote replica with a handle and a successful RPC has its
`(replicaId, responses)` entry in the returned map.  (5) A remote replica
whose handle is absent or whose RPC failed (for every group it appears in)
contributes zero witnesses: it has no entry in the returned map. -/
theorem requestChannelLastLogInfos_error_policy (env : WCEnv)
    (maxReplicaCount : Nat) (reqs : List ElectionReq) :
    ((∀ r ∈ reqs, env.nodeId ∈ r.cfg.replicas →
        isOkE (env.lastIndexAndTerm r.ch) = true) →
      ∃ m, requestChannelLastLogInfos env reqs = .ok m) ∧
    (∀ e, requestChannelLastLogInfos env reqs = .error e →
      (env.online env.nodeId = true ∧
        ∃ r ∈ reqs, env.nodeId ∈ r.cfg.replicas ∧
          env.lastIndexAndTerm r.ch = .error e) ∧
      election env maxReplicaCount reqs = reqs.map (fun _ => .err (.mls e))) ∧
    ((env.online env.nodeId = true ∧
        ∃ r ∈ reqs, env.nodeId ∈ r.cfg.replicas ∧
          isOkE (env.lastIndexAndTerm r.ch) = false) →
      ∃ e, requestChannelLastLogInfos env reqs = .error e) ∧
    (∀ m rid rs resps, requestChannelLastLogInfos env reqs = .ok m →
      (rid, rs) ∈ groupByReplica reqs → env.online rid = true → rid ≠ env.nodeId →
      env.nodePresent rid = true →
      env.rpc rid (rs.map (fun r => ⟨r.ch.channelId, r.ch.channelType⟩)) = some resps →
      (rid, resps) ∈ m) ∧
    (∀ m rid, requestChannelLastLogInfos env reqs = .ok m → rid ≠ env.nodeId →
      (∀ rs, (rid, rs) ∈ groupByReplica reqs →
        env.nodePresent rid = false ∨
          env.rpc rid (rs.map (fun r => ⟨r.ch.channelId, r.ch.channelType⟩)) = none) →
      ∀ resps, (rid, resps) ∉ m) := by
  refine ⟨?_, ?_, ?_, ?_, ?_⟩
  · intro h
    have hok : isOkE (collectGrouped env (groupByReplica reqs)) = true := by
      refine collectGrouped_ok_of env _ ?_
      intro rs hmem r hr
      obtain ⟨hreq, hrid⟩ := groupByReplica_sound reqs (env.nodeId, rs) hmem r hr
      exact h r hreq hrid
    rcases h2 : collectGrouped env (groupByReplica reqs) with e | m
    · rw [h2] at hok
      cases hok
    · exact ⟨m, h2⟩
  · intro e he
    obtain ⟨rs, hmem, hon, hloc⟩ := collectGrouped_error_src env _ e he
    obtain ⟨r, hr, hre⟩ := localInfos_error_src env rs e hloc
    have hsound := groupByReplica_sound reqs (env.nodeId, rs) hmem r hr
    refine ⟨⟨hon, r, hsound.1, hsound.2, hre⟩, ?_⟩
    rw [election, he]
  · rintro ⟨hon, r, hr, hrid, hfail⟩
    obtain ⟨rs, hmem, hrs⟩ := groupByReplica_cover reqs r env.nodeId hr hrid
    rcases hloc : localInfos env rs with e | infos
    · exact collectGrouped_error_propagate env _ rs e hon hmem hloc
    · have := localInfos_all_ok env rs infos hloc r hrs
      rw [hfail] at this
      cases this
  · intro m rid rs resps hok hmem hon hne hpres hrpc
    exact collectGrouped_rpc_complete env (groupByReplica reqs) m rid rs resps
      hok hmem hon hne hpres hrpc
  · intro m rid hok hne hfail resps hmem
    obtain ⟨rs, hrs, hon, hsrc⟩ :=
      collectGrouped_mem_src env (groupByReplica reqs) m rid resps hok hmem
    rcases hsrc with ⟨hr, _⟩ | ⟨_, hpres, hrpc⟩
    · exact absurd hr hne
    · rcases hfail rs hrs with hp | hr
      · rw [hpres] at hp
        cases hp
      · rw [hrpc] at hr
        cases hr

/-- Witness for C7 at concrete environments: with every remote contribution
failing the collection still succeeds; and with replica 2's RPC healthy
while replica 3's remote handle is absent, the returned map carries replica
2's RPC responses under its id and holds no entry for replica 3. -/
theorem requestChannelLastLogInfos_error_policy_witness :
    (∃ m, requestChannelLastLogInfos exEnvC7 exReqsC7 = .ok m) ∧
      requestChannelLastLogInfos exEnvC7b exReqsC7b = .ok exMapC7b ∧
      (2, [(⟨"c", 2, 77, 9⟩ : ChannelLastLogInfoResponse)]) ∈ exMapC7b ∧
      ∀ resps, (3, resps) ∉ exMapC7b := by
  refine ⟨(requestChannelLastLogInfos_error_policy exEnvC7 3 exReqsC7).1 (by decide),
    rfl, ?_, ?_⟩
  · exact (requestChannelLastLogInfos_error_policy exEnvC7b 3 exReqsC7b).2.2.2.1
      exMapC7b 2 [exReqC7b] [⟨"c", 2, 77, 9⟩] rfl (by decide) rfl (by decide) rfl rfl
  · intro resps
    exact (requestChannelLastLogInfos_error_policy exEnvC7b 3 exReqsC7b).2.2.2.2
      exMapC7b 3 rfl (by decide) (fun rs _ => Or.inl rfl) resps

end Cluster

namespace Wkdb

lemma assocGet_assocSet_self [DecidableEq α] (m : List (α × β)) (k : α) (v : β) :
    assocGet (assocSet m k v) k = some v := by
  induction m with
  | nil => simp [assocSet, assocGet]
  | cons hd rest ih =>
    obtain ⟨k2, v2⟩ := hd
    rw [assocSet]
    split_ifs with hk
    · rw [assocGet, if_pos hk]
    · rw [assocGet, if_neg hk]
      exact ih

/-- A scan with an empty key range loads nothing. -/
lemma loadMsg_of_scan_empty (db : DB) (cid : String) (ct : Nat) (s : Nat)
    (h : scanSeq (getChan db ⟨cid, ct⟩) s (s + 1) = []) :
    LoadMsg db cid ct s = .error .notFound := by
  unfold LoadMsg
  rw [h]
  rfl

/-- C4: the round-trip FAILS.  `iteratorChannelMessagesDirection` advances the
iterator before reading the first entry, so the first column row of the scan
(the lowest tag — the header/framer byte) is dropped: both `LoadMsg` and
`GetMessage` return the appended message with `framer` zeroed, which differs
from the appended message. -/
theorem loadMsg_getMessage_drop_header :
    LoadMsg exDbC4 "c" 2 1 = .ok { exMsgC4 with framer := 0 } ∧
      GetMessage exDbC4 42 = .ok { exMsgC4 with framer := 0 } ∧
      ({ exMsgC4 with framer := 0 } : Message) ≠ exMsgC4 :=
  ⟨by rfl, by rfl, by decide⟩

/-- C5 counterexample: `TruncateLogTo` runs a DIRECT `db.DeleteRange` before
the batch, so when the batch commit fails the call returns an error but the
primary rows in `[seq, ∞)` are already gone (while `channelLastMessageSeq` is
unchanged) — "on any error the stored state is unchanged" is false. -/
theorem truncateLogTo_error_changes_state :
    (TruncateLogTo exDbC5 "c" 1 3 0 false).1 = .error .writeFailed ∧
      (TruncateLogTo exDbC5 "c" 1 3 0 false).2 ≠ exDbC5 ∧
      getChan (TruncateLogTo exDbC5 "c" 1 3 0 false).2 ⟨"c", 1⟩ = [] ∧
      getChan exDbC5 ⟨"c", 1⟩ ≠ [] ∧
      (TruncateLogTo exDbC5 "c" 1 3 0 false).2.lastSeq = exDbC5.lastSeq :=
  ⟨by rfl, by decide, by rfl, by decide, by rfl⟩

/-- C5 amended: `TruncateLogTo` fails on `seq = 0` with the state unchanged;
for `seq ≥ 1`, when the batch commit succeeds it deletes every primary row
with sequence in `[seq, 2^64-1)` and sets `channelLastMessageSeq` to
`seq - 1`, so afterwards `LoadMsg` returns `NotFound` for every `s ≥ seq`
(below the `MaxUint64` bound the Go code excludes) and
`GetChannelLastMessageSeq` returns `seq - 1`; but the row deletion is issued
once directly and once in the batch, so a failed commit leaves the rows
deleted with the metadata unchanged. -/
theorem truncateLogTo_rule (db : DB) (channelId : String) (channelType : Nat)
    (seq now : Nat) (h : 1 ≤ seq) :
    (∀ b, TruncateLogTo db channelId channelType 0 now b = (.error .invalidSeq, db)) ∧
    (TruncateLogTo db channelId channelType seq now true).1 = .ok () ∧
    (∀ s, seq ≤ s → s < 2 ^ 64 - 1 →
      LoadMsg (TruncateLogTo db channelId channelType seq now true).2
        channelId channelType s = .error .notFound) ∧
    GetChannelLastMessageSeq (TruncateLogTo db channelId channelType seq now true).2
      channelId channelType = (seq - 1, now) := by
  have hne : ¬(seq = 0) := by omega
  have hchans : getChan (TruncateLogTo db channelId channelType seq now true).2
      ⟨channelId, channelType⟩ =
      deleteRangeRows (deleteRangeRows (getChan db ⟨channelId, channelType⟩)
        seq (2 ^ 64 - 1)) seq (2 ^ 64 - 1) := by
    unfold TruncateLogTo
    rw [if_neg hne]
    simp only [eq_self_iff_true, if_true, getChan, assocGet_assocSet_self, Option.getD_some]
  have hlast : (TruncateLogTo db channelId channelType seq now true).2.lastSeq =
      assocSet db.lastSeq ⟨channelId, channelType⟩ (seq - 1, now) := by
    unfold TruncateLogTo
    rw [if_neg hne]
    simp only [eq_self_iff_true, if_true]
  refine ⟨?_, ?_, ?_, ?_⟩
  · intro b
    unfold TruncateLogTo
    rw [if_pos rfl]
  · unfold TruncateLogTo
    rw [if_neg hne]
    simp only [eq_self_iff_true, if_true]
  · intro s hs1 hs2
    apply loadMsg_of_scan_empty
    rw [hchans]
    unfold scanSeq
    rw [List.filter_eq_nil_iff]
    intro e he
    rw [deleteRangeRows, List.mem_filter] at he
    obtain ⟨_, hcond⟩ := he
    simp only [Bool.not_eq_eq_eq_not, Bool.not_true, Bool.and_eq_false_iff,
      decide_eq_false_iff_not, not_le, not_lt] at hcond
    simp only [Bool.and_eq_true, decide_eq_true_eq, not_and, not_lt]
    intro hle
    rcases hcond with hlt | hge
    · omega
    · omega
  · rw [GetChannelLastMessageSeq, hlast, assocGet_assocSet_self]
    rfl

/-- Witness for the amended C5 at the concrete one-message store: truncating
to 3 succeeds, sequence 5 is gone and the last sequence is 2. -/
theorem truncateLogTo_rule_witness :
    (TruncateLogTo exDbC5 "c" 1 3 0 true).1 = .ok () ∧
      LoadMsg (TruncateLogTo exDbC5 "c" 1 3 0 true).2 "c" 1 5 = .error .notFound ∧
      GetChannelLastMessageSeq (TruncateLogTo exDbC5 "c" 1 3 0 true).2 "c" 1 = (2, 0) :=
  have h := truncateLogTo_rule exDbC5 "c" 1 3 0 (by decide)
  ⟨h.2.1, h.2.2.1 5 (by decide) (by decide), h.2.2.2⟩

lemma getLast_setW (db : DB) (cid : String) (ct : Nat) (v now : Nat) :
    GetChannelLastMessageSeq (setChannelLastMessageSeqW db cid ct v now) cid ct =
      (v, now) := by
  rw [GetChannelLastMessageSeq, setChannelLastMessageSeqW, assocGet_assocSet_self]
  rfl

lemma appendFold_lastSeq (cid : String) (ct : Nat) (now : Nat) :
    ∀ (msgs : List Message) (s : Nat) (db : DB),
      consecutiveFrom s msgs = true → msgs ≠ [] → s + msgs.length < 2 ^ 32 →
      GetChannelLastMessageSeq
        (msgs.foldl (fun d m => setChannelLastMessageSeqW
          (writeMessage d cid ct m) cid ct (m.messageSeq % 2 ^ 32) now) db) cid ct =
        (s + msgs.length, now) := by
  intro msgs
  induction msgs with
  | nil => intro s db _ hne _; exact absurd rfl hne
  | cons m rest ih =>
    intro s db hchain _ hbound
    rw [consecutiveFrom, Bool.and_eq_true, decide_eq_true_eq] at hchain
    obtain ⟨hm, hrest⟩ := hchain
    rw [List.foldl_cons]
    cases rest with
    | nil =>
      rw [List.foldl_nil, getLast_setW]
      have hmod : m.messageSeq % 2 ^ 32 = s + 1 := by
        rw [hm]
        apply Nat.mod_eq_of_lt
        simp only [List.length_cons] at hbound
        omega
      rw [hmod]
      simp
    | cons m2 rest2 =>
      rw [ih (s + 1) _ hrest (by simp) (by simp only [List.length_cons] at hbound ⊢; omega)]
      simp only [List.length_cons]
      congr 1
      omega

lemma appendAll_lastSeq (cid : String) (ct : Nat) (now : Nat) :
    ∀ (batches : List (List Message)) (s : Nat) (db : DB),
      batchesChain s batches = true → s + batches.flatten.length < 2 ^ 32 →
      (GetChannelLastMessageSeq db cid ct).1 = s →
      (GetChannelLastMessageSeq (appendAll db cid ct batches now) cid ct).1 =
        s + batches.flatten.length := by
  intro batches
  induction batches with
  | nil =>
    intro s db _ _ hdb
    simpa [appendAll] using hdb
  | cons b rest ih =>
    intro s db hchain hbound hdb
    rw [batchesChain, Bool.and_eq_true, Bool.and_eq_true] at hchain
    obtain ⟨⟨hbne, hbcons⟩, hrest⟩ := hchain
    have hb : b ≠ [] := by
      intro hb0
      rw [hb0] at hbne
      simp at hbne
    have hflat : (b :: rest).flatten.length = b.length + rest.flatten.length := by
      rw [List.flatten_cons, List.length_append]
    have hstep : GetChannelLastMessageSeq
        ((AppendMessages db cid ct b now true).2) cid ct = (s + b.length, now) := by
      unfold AppendMessages
      rw [if_pos rfl]
      exact appendFold_lastSeq cid ct now b s _ hbcons hb (by omega)
    have hrec := ih (s + b.length) ((AppendMessages db cid ct b now true).2)
      hrest (by omega) (by rw [hstep])
    rw [appendAll, List.foldl_cons]
    rw [appendAll] at hrec
    rw [hrec, hflat]
    omega

lemma consecutiveFrom_append (l1 l2 : List Message) :
    ∀ s, consecutiveFrom s (l1 ++ l2) =
      (consecutiveFrom s l1 && consecutiveFrom (s + l1.length) l2) := by
  induction l1 with
  | nil => intro s; simp [consecutiveFrom]
  | cons m rest ih =>
    intro s
    rw [List.cons_append, consecutiveFrom, consecutiveFrom, ih (s + 1),
      Bool.and_assoc, List.length_cons]
    have : s + 1 + rest.length = s + (rest.length + 1) := by omega
    rw [this]

lemma batchesChain_flatten :
    ∀ (batches : List (List Message)) (s : Nat), batchesChain s batches = true →
      consecutiveFrom s batches.flatten = true := by
  intro batches
  induction batches with
  | nil => intro s _; rfl
  | cons b rest ih =>
    intro s hchain
    rw [batchesChain, Bool.and_eq_true, Bool.and_eq_true] at hchain
    obtain ⟨⟨_, hbcons⟩, hrest⟩ := hchain
    rw [List.flatten_cons, consecutiveFrom_append, Bool.and_eq_true]
    exact ⟨hbcons, ih _ hrest⟩

lemma consecutiveFrom_maxfold :
    ∀ (msgs : List Message) (s acc : Nat), consecutiveFrom s msgs = true → acc ≤ s →
      msgs.foldl (fun a m => Nat.max a m.messageSeq) acc =
        if msgs.isEmpty then acc else s + msgs.length := by
  intro msgs
  induction msgs with
  | nil => intro s acc _ _; rfl
  | cons m rest ih =>
    intro s acc hchain hacc
    rw [consecutiveFrom, Bool.and_eq_true, decide_eq_true_eq] at hchain
    obtain ⟨hm, hrest⟩ := hchain
    rw [List.foldl_cons]
    have hmax : Nat.max acc m.messageSeq = s + 1 := by
      rw [hm]
      exact Nat.max_eq_right (by omega)
    rw [hmax, ih (s + 1) (s + 1) hrest (le_refl _)]
    cases rest with
    | nil => rfl
    | cons m2 rest2 =>
      simp only [List.isEmpty_cons, List.length_cons, Bool.false_eq_true, if_false]
      omega

/-- C6: starting from the empty store, any sequence of successful
`AppendMessages` calls whose non-empty batches continue consecutively from
the previous last sequence leaves `channelLastMessageSeq` equal to the
maximum `messageSeq` ever appended; and the metadata update is in the same
committed batch as the rows — a failed commit changes neither the rows nor
the metadata. -/
theorem appendMessages_lastSeq_max (cid : String) (ct : Nat) (now : Nat)
    (batches : List (List Message))
    (h1 : batchesChain 0 batches = true)
    (h2 : batches.flatten.length < 2 ^ 32) :
    (GetChannelLastMessageSeq (appendAll DB.empty cid ct batches now) cid ct).1 =
      batches.flatten.foldl (fun a m => Nat.max a m.messageSeq) 0 ∧
    ∀ (db : DB) (msgs : List Message),
      (AppendMessages db cid ct msgs now false).2.chans = db.chans ∧
      (AppendMessages db cid ct msgs now false).2.lastSeq = db.lastSeq := by
  constructor
  · rw [appendAll_lastSeq cid ct now batches 0 DB.empty h1 (by omega) (by rfl)]
    rw [consecutiveFrom_maxfold batches.flatten 0 0
      (batchesChain_flatten batches 0 h1) (le_refl 0)]
    split_ifs with hempty
    · rw [List.isEmpty_iff] at hempty
      rw [hempty]
      rfl
    · omega
  · intro db msgs
    exact ⟨rfl, rfl⟩

/-- Witness for C6 at the concrete batches. -/
theorem appendMessages_lastSeq_max_witness :
    (GetChannelLastMessageSeq (appendAll DB.empty "c" 1 exBatchesC6 0) "c" 1).1 =
      exBatchesC6.flatten.foldl (fun a m => Nat.max a m.messageSeq) 0 :=
  (appendMessages_lastSeq_max "c" 1 0 exBatchesC6 (by decide) (by decide)).1

lemma writeMessagesBatch_isSome :
    ∀ (reqs : List AppendMessagesReq) (db : DB) (now : Nat),
      (∀ r ∈ reqs, r.messages ≠ []) →
      (writeMessagesBatch db reqs now).isSome = true := by
  intro reqs
  induction reqs with
  | nil => intro db now _; rfl
  | cons req rest ih =>
    intro db now h
    rw [writeMessagesBatch]
    rcases hg : req.messages.get? (req.messages.length - 1) with _ | lastMsg
    · rw [List.get?_eq_none] at hg
      have h0 : req.messages.length = 0 := by omega
      exact absurd (List.length_eq_zero.mp h0) (h req (List.mem_cons_self _ _))
    · simp only [hg]
      exact ih _ now (fun r hr => h r (List.mem_cons_of_mem _ hr))

/-- C10: `writeMessagesBatch` evaluates `req.Messages[len(req.Messages)-1]`
per request; on a request with an empty `Messages` slice that index is out of
range and the call panics (modelled `none`) instead of returning an error,
while for every input whose requests all carry at least one message the
access is in bounds and the batch is written. -/
theorem writeMessagesBatch_requires_nonempty (db : DB)
    (reqs : List AppendMessagesReq) (now : Nat) :
    ((∀ r ∈ reqs, r.messages ≠ []) → (writeMessagesBatch db reqs now).isSome = true) ∧
    writeMessagesBatch DB.empty [⟨"c", 1, []⟩] 0 = none :=
  ⟨writeMessagesBatch_isSome reqs db now, rfl⟩

/-- Witness for C10: a batch whose single request has one message is
written. -/
theorem writeMessagesBatch_requires_nonempty_witness :
    (writeMessagesBatch DB.empty [⟨"c", 1, [exMsgC10]⟩] 0).isSome = true :=
  (writeMessagesBatch_requires_nonempty DB.empty [⟨"c", 1, [exMsgC10]⟩] 0).1
    (by decide)

end Wkdb
